import Mathlib

/-!
Verification of the dictionary-lookup client of `kindle_to_anki`
(`src/dictionary_service.py`): the `RateLimiter` sliding-window limiter,
`DictionaryService.get_definition` (retry loop with exponential backoff and
error classification), `DictionaryService.get_definitions` (batch lookup),
and `DictionaryService._extract_definition` (response-body extraction).

The embedding is shallow: the JSON values the HTTP layer would deliver are a
Lean inductive, the transport (`self.session.get` plus the
`raise_for_status` behaviour of the `requests` library) is abstracted as a
function from attempt index to the observable outcome of that attempt, time
is modelled by rationals, and `time.sleep`/`time.time` become constraints
between successive clock readings.
-/

/-- JSON values, as delivered by `response.json()`.  Numbers are modelled as
integers; no claim depends on numeric values. -/
inductive Json where
  | null
  | bool (b : Bool)
  | num (n : Int)
  | str (s : String)
  | arr (xs : List Json)
  | obj (kvs : List (String × Json))

/-- Value of key `k` in a JSON object's key/value list (Python `d[k]` /
`k in d`); first match, mirroring dict lookup (Python dicts have unique
keys, so lists with duplicate keys do not arise from real responses). -/
def jlookup (kvs : List (String × Json)) (k : String) : Option Json :=
  match kvs with
  | [] => none
  | (k', v) :: rest => if k' = k then some v else jlookup rest k

/-- Python truthiness of a JSON value (`if entry["meanings"]:` etc.). -/
def truthy : Json → Bool
  | .null => false
  | .bool b => b
  | .num n => n ≠ 0
  | .str s => s ≠ ""
  | .arr xs => ¬ xs.isEmpty
  | .obj kvs => ¬ kvs.isEmpty

/-- `DictionaryService._extract_definition` (dictionary_service.py lines
183-215).  Control flow is translated branch by branch:

* `if not data or not isinstance(data, list): return None` — anything that
  is not a non-empty JSON array yields `none`;
* `entry = data[0]`, `if "meanings" in entry and entry["meanings"]:` — for a
  non-dict entry the membership test is either `False` (string/list) or
  raises `TypeError` (caught by the enclosing handler, returning `None`),
  and subscripting a non-dict with a string key likewise ends in the caught
  `TypeError`; every non-object entry therefore yields `none`;
* `meaning = entry["meanings"][0]` — a truthy non-array value for
  `"meanings"` ends in a caught `TypeError`/failed membership test, hence
  `none`; a truthy array is non-empty, matching the pattern below;
* the `definitions` level is handled identically;
* `if "definition" in definition_obj: return definition_obj["definition"]`
  — the stored value is returned unchecked (no truthiness test), and a
  missing key falls through to `return None`.

The final `except (KeyError, IndexError, TypeError): return None` makes the
function total, which is why the result type is `Option Json`. -/
def extract_definition (data : Json) : Option Json :=
  match data with
  | .arr (entry :: _) =>
    match entry with
    | .obj ekvs =>
      match jlookup ekvs "meanings" with
      | some mv =>
        if truthy mv then
          match mv with
          | .arr (meaning :: _) =>
            match meaning with
            | .obj mkvs =>
              match jlookup mkvs "definitions" with
              | some dv =>
                if truthy dv then
                  match dv with
                  | .arr (dobj :: _) =>
                    match dobj with
                    | .obj dkvs => jlookup dkvs "definition"
                    | _ => none
                  | _ => none
                else none
              | none => none
            | _ => none
          | _ => none
        else none
      | none => none
    | _ => none
  | _ => none

/-- Extraction rule as the specification words it (§4.2): "a definition is
present only if the response contains at least one entry, that entry
contains at least one 'meaning' group, and that group contains at least one
definition text; take the first definition text found by this path", with
any deviation yielding absence.  Stated as a second definition purely to be
compared with `extract_definition` above. -/
def specFirstDefinition (data : Json) : Option Json :=
  match data with
  | .arr (.obj ekvs :: _) =>
    match jlookup ekvs "meanings" with
    | some (.arr (.obj mkvs :: _)) =>
      match jlookup mkvs "definitions" with
      | some (.arr (.obj dkvs :: _)) => jlookup dkvs "definition"
      | _ => none
    | _ => none
  | _ => none

/-- A `requests.RequestException` as the retry loop's handler observes it:
`withResp s` is an exception whose `e.response` is a response with status
code `s` (as raised by the real `raise_for_status`, which attaches the
response); `noResp` is an exception whose `e.response` is `None`
(transport-level failures such as timeouts or connection resets). -/
inductive ReqExn where
  | withResp (status : Nat)
  | noResp

/-- Observable outcome of one `self.session.get(url)` call: either a
response (status code plus JSON body) or a raised `RequestException`. -/
inductive AttemptOutcome where
  | resp (status : Nat) (body : Json)
  | raised (e : ReqExn)

/-- Net result of the `try` block of one loop iteration
(dictionary_service.py lines 93-112): either a `return` with a value, or a
`RequestException` entering the `except` handler. -/
inductive StepRes where
  | done (d : Option Json)
  | exn (e : ReqExn)

/-- `response.raise_for_status()` of the `requests` library: raises
`HTTPError` (with the response attached) exactly for status codes in
[400, 600); returns normally otherwise. -/
def raise_for_status (status : Nat) : Option ReqExn :=
  if 400 ≤ status ∧ status < 600 then some (.withResp status) else none

/-- The body of the `try` block for one attempt (lines 94-112):
404 returns `None` without retrying (lines 99-100); the
`raise_for_status` on line 104 (guarded by the 4xx-non-429 test on
line 103) and the unconditional one on line 106 together raise exactly when
`raise_for_status` raises, i.e. for every status in [400, 600); otherwise
the body is parsed and `_extract_definition` applied (lines 108-112). -/
def attemptStep : AttemptOutcome → StepRes
  | .raised e => .exn e
  | .resp status body =>
    if status = 404 then .done none
    else
      match raise_for_status status with
      | some e => .exn e
      | none => .done (extract_definition body)

/-- The handler's break test (lines 118-124): the exception carries a
response whose status is 4xx but not 429. -/
def terminalClientError : ReqExn → Bool
  | .withResp s => decide (400 ≤ s) && decide (s < 500) && decide (s ≠ 429)
  | .noResp => false

/-- Observable events of one `get_definition` call, in order:
`RateLimiter.wait_if_needed()` invocations, `self.session.get` invocations,
and `time.sleep(delay)` backoff waits. -/
inductive Ev where
  | acquire
  | transportCall
  | sleep (d : Nat)
  deriving DecidableEq, Repr

/-- Result and event trace of the retry loop. -/
structure LoopOut where
  result : Except ReqExn (Option Json)
  trace : List Ev

/-- The retry loop `for attempt in range(self.max_retries + 1)` (lines
92-135), reindexed for structural recursion: `runFrom tr a r` runs the loop
from attempt index `a` with `r` retries still allowed (`r = max_retries -
a`); the whole loop is `runFrom tr 0 max_retries`.  At `r = 0` the
handler's `attempt == self.max_retries` test (line 127) breaks out, so both
a terminal client error and any other exception end the loop; the raise on
lines 138-140 wraps the last exception.  With retries remaining, a terminal
client error breaks (line 124), and any other exception sleeps
`2 ** attempt` (lines 131-132), re-acquires the rate limiter (line 135) and
retries. -/
def runFrom (tr : Nat → AttemptOutcome) : Nat → Nat → LoopOut
  | a, 0 =>
    match attemptStep (tr a) with
    | .done d => ⟨.ok d, [Ev.transportCall]⟩
    | .exn e => ⟨.error e, [Ev.transportCall]⟩
  | a, r + 1 =>
    match attemptStep (tr a) with
    | .done d => ⟨.ok d, [Ev.transportCall]⟩
    | .exn e =>
      if terminalClientError e then ⟨.error e, [Ev.transportCall]⟩
      else
        let rest := runFrom tr (a + 1) r
        ⟨rest.result, Ev.transportCall :: Ev.sleep (2 ^ a) :: Ev.acquire :: rest.trace⟩

/-- Errors `get_definition` can raise: `ValueError` for invalid input
(lines 79-83) or `DictionaryServiceError` wrapping the last underlying
`RequestException` (lines 138-140). -/
inductive PyErr where
  | valueError (msg : String)
  | dsError (last : ReqExn)

/-- Result and event trace of one `get_definition` call. -/
structure GetDefOut where
  result : Except PyErr (Option Json)
  trace : List Ev

def mapDsErr : Except ReqExn (Option Json) → Except PyErr (Option Json)
  | .ok d => .ok d
  | .error e => .error (.dsError e)

/-- Python `str.strip()`: drop leading and trailing whitespace.  (Python
strips the full Unicode whitespace class; `Char.isWhitespace` covers the
ASCII part, which is all the claims exercise.) -/
def strip (s : String) : String :=
  String.mk
    (((s.data.dropWhile Char.isWhitespace).reverse.dropWhile
      Char.isWhitespace).reverse)

/-- `DictionaryService._clean_word` (lines 169-181): lowercase, then strip
surrounding whitespace. -/
def clean_word (word : String) : String :=
  strip (String.mk (word.data.map Char.toLower))

/-- `DictionaryService.get_definition` (lines 65-140).  `word` is
`Option String` so that the Python `None` argument is representable.  The
validation (lines 79-83) happens before the rate limiter is touched and
before any transport call; on valid input the rate limiter is acquired once
(line 88) and the retry loop runs.  `attempts i` abstracts the outcome of
the transport call of attempt `i` (the GET on the URL built from
`clean_word word`); word cleaning affects only the URL string and has no
further observable effect in this embedding. -/
def get_definition (attempts : Nat → AttemptOutcome) (maxRetries : Nat)
    (word : Option String) : GetDefOut :=
  match word with
  | none => ⟨.error (.valueError "Word cannot be None"), []⟩
  | some w =>
    if strip w = "" then ⟨.error (.valueError "Word cannot be empty"), []⟩
    else
      let L := runFrom attempts 0 maxRetries
      ⟨mapDsErr L.result, Ev.acquire :: L.trace⟩

/-- `DictionaryService.get_definitions` (lines 142-167).  `tr w` is the
per-word transport.  The `isinstance(words, list)` test (line 155) is
discharged by typing.  Only `DictionaryServiceError` is caught per word
(line 163), converting that word's slot to `None`; any other exception
(in particular the `ValueError` of invalid words) propagates, aborting the
whole call. -/
def get_definitions (tr : Option String → Nat → AttemptOutcome)
    (maxRetries : Nat) : List (Option String) → Except PyErr (List (Option Json))
  | [] => .ok []
  | w :: rest =>
    match (get_definition (tr w) maxRetries w).result with
    | .ok d =>
      match get_definitions tr maxRetries rest with
      | .ok ds => .ok (d :: ds)
      | .error e => .error e
    | .error (.dsError _) =>
      match get_definitions tr maxRetries rest with
      | .ok ds => .ok (none :: ds)
      | .error e => .error e
    | .error (.valueError m) => .error (.valueError m)

def isCall : Ev → Bool
  | .transportCall => true
  | _ => false

def isAcquire : Ev → Bool
  | .acquire => true
  | _ => false

/-- Number of `self.session.get` invocations recorded in a trace. -/
def numCalls (o : GetDefOut) : Nat := o.trace.countP isCall

/-- Number of `RateLimiter.wait_if_needed` invocations recorded in a
trace. -/
def numAcquires (o : GetDefOut) : Nat := o.trace.countP isAcquire

/-- Backoff delays recorded in a trace, in order. -/
def sleepsOf (o : GetDefOut) : List Nat :=
  o.trace.filterMap fun ev =>
    match ev with
    | .sleep d => some d
    | _ => none

/-- Whether a `get_definition` result is a raised `DictionaryServiceError`. -/
def isDsError : Except PyErr (Option Json) → Bool
  | .error (.dsError _) => true
  | _ => false

/-- Whether a `get_definition` result is a raised `ValueError`. -/
def isValueErr : Except PyErr (Option Json) → Bool
  | .error (.valueError _) => true
  | _ => false

/-- The result slot `get_definitions` produces for one word when no
`ValueError` interferes: the word's own definition on success, `None` when
its lookup raises `DictionaryServiceError`. -/
def slotOf (tr : Option String → Nat → AttemptOutcome) (maxRetries : Nat)
    (w : Option String) : Option Json :=
  match (get_definition (tr w) maxRetries w).result with
  | .ok d => d
  | .error _ => none

/-- Retryable outcomes as claim C2 words them: a 5xx status, status 429, or
a transport-level failure (an exception with no attached response). -/
def retryableByClaim (o : AttemptOutcome) : Prop :=
  (∃ b, o = .resp 429 b) ∨
  (∃ s b, o = .resp s b ∧ 500 ≤ s ∧ s < 600) ∨
  o = .raised .noResp

/-- The pruning loop of `RateLimiter.wait_if_needed` (dictionary_service.py
lines 31-32): `while self.request_times and current_time -
self.request_times[0] >= 1.0: self.request_times.popleft()`.  It pops from
the front and stops at the first retained entry. -/
def prune (now : ℚ) : List ℚ → List ℚ
  | [] => []
  | t :: rest => if 1 ≤ now - t then prune now rest else t :: rest

/-- Lower bound on the time spent inside `wait_if_needed` after the first
`time.time()` reading `t1` (lines 35-38): when the pruned deque has reached
the ceiling, the code sleeps `1.0 - (current_time - self.request_times[0])`
if that is positive (`time.sleep` suspends for at least its argument);
otherwise no time needs to pass.  The `[]` branch of the inner match is the
configuration in which Python raises `IndexError` (possible only with
`max_requests_per_second = 0`); steps of the trace relation exclude it. -/
def sleepLB (maxReq : ℕ) (deq : List ℚ) (t1 : ℚ) : ℚ :=
  if maxReq ≤ (prune t1 deq).length then
    match prune t1 deq with
    | [] => 0
    | t0 :: _ => max 0 (1 - (t1 - t0))
  else 0

/-- State of a `RateLimiter` together with the full history of admitted
request timestamps: `deque` is `self.request_times`, `hist` is every
timestamp ever appended to it (pruned ones included), `now` is the clock
value at which the last `wait_if_needed` call returned (or the creation
time). -/
structure RLState where
  hist : List ℚ
  deque : List ℚ
  now : ℚ

/-- Membership of timestamp `t` in the trailing 1-second window ending at
`now`, matching the retention test of the pruning loop (`now - t < 1.0`). -/
def inWin (now t : ℚ) : Bool := decide (now - t < 1)

/-- Sequential executions of `wait_if_needed` on a `RateLimiter` with
ceiling `maxReq`.  A step models one complete call: `t1` is the
`time.time()` reading on line 28 and `t2` the one on line 41 (the appended
timestamp, which is also the moment the call returns).  `h1` is clock
monotonicity between calls (the spec's §3 assumes a monotonic clock), `h2`
says at least the required sleep elapsed between the two readings, and
`hok` excludes the configuration in which line 36 raises `IndexError`
(empty pruned deque with ceiling 0), since that call never returns. -/
inductive RLReach (maxReq : ℕ) : RLState → Prop where
  | init (t : ℚ) : RLReach maxReq ⟨[], [], t⟩
  | step {s : RLState} (t1 t2 : ℚ)
      (hs : RLReach maxReq s)
      (h1 : s.now ≤ t1)
      (hok : maxReq ≠ 0 ∨ prune t1 s.deque ≠ [])
      (h2 : t1 + sleepLB maxReq s.deque t1 ≤ t2) :
      RLReach maxReq ⟨s.hist ++ [t2], prune t1 s.deque ++ [t2], t2⟩

/-- Inductive invariant of the rate limiter: the history splits into a
pruned prefix (all of it at least 1 second old) and the current deque; the
deque is sorted, bounded by the current time, and holds at most `maxReq`
timestamps inside the trailing window. -/
structure RLInv (maxReq : ℕ) (s : RLState) : Prop where
  split : ∃ d, s.hist = d ++ s.deque ∧ ∀ t ∈ d, 1 ≤ s.now - t
  sorted : s.deque.Sorted (· ≤ ·)
  le_now : ∀ t ∈ s.deque, t ≤ s.now
  window : s.deque.countP (inWin s.now) ≤ maxReq

/-- The response body `[{"meanings":[{"definitions":[{"definition":"X"}]}]}]`
used by the spec's extraction example and by concrete witnesses. -/
def exampleBody : Json :=
  .arr [.obj [("meanings",
    .arr [.obj [("definitions",
      .arr [.obj [("definition", .str "X")]])]])]]

/-- Concrete batch transport for witnesses: looking up the word "bad"
always hits a transport-level failure; every other word succeeds with
`exampleBody` on the first attempt. -/
def batchTr : Option String → Nat → AttemptOutcome := fun w _ =>
  match w with
  | some "bad" => .raised .noResp
  | _ => .resp 200 exampleBody

/-- Whether a `get_definitions` result is a raised `ValueError`. -/
def batchIsValueErr : Except PyErr (List (Option Json)) → Bool
  | .error (.valueError _) => true
  | _ => false

theorem extract_definition_eq_spec (data : Json) :
    extract_definition data = specFirstDefinition data := by
  cases data with
  | arr xs =>
    cases xs with
    | nil => rfl
    | cons entry rest =>
      cases entry with
      | obj ekvs =>
        cases hmv : jlookup ekvs "meanings" with
        | none => simp [extract_definition, specFirstDefinition, hmv]
        | some mv =>
          cases mv with
          | arr ms =>
            cases ms with
            | nil => simp [extract_definition, specFirstDefinition, hmv, truthy]
            | cons meaning ms' =>
              cases meaning with
              | obj mkvs =>
                cases hdv : jlookup mkvs "definitions" with
                | none =>
                  simp [extract_definition, specFirstDefinition, hmv, hdv,
                    truthy]
                | some dv =>
                  cases dv with
                  | arr ds =>
                    cases ds with
                    | nil =>
                      simp [extract_definition, specFirstDefinition, hmv, hdv,
                        truthy]
                    | cons dobj ds' =>
                      cases dobj <;>
                        simp [extract_definition, specFirstDefinition, hmv,
                          hdv, truthy]
                  | null =>
                    simp [extract_definition, specFirstDefinition, hmv, hdv,
                      truthy]
                  | bool b =>
                    cases b <;>
                      simp [extract_definition, specFirstDefinition, hmv, hdv,
                        truthy]
                  | num n =>
                    by_cases hn : n = 0 <;>
                      simp [extract_definition, specFirstDefinition, hmv, hdv,
                        truthy, hn]
                  | str s =>
                    by_cases hs : s = "" <;>
                      simp [extract_definition, specFirstDefinition, hmv, hdv,
                        truthy, hs]
                  | obj kvs =>
                    cases kvs <;>
                      simp [extract_definition, specFirstDefinition, hmv, hdv,
                        truthy]
              | null => simp [extract_definition, specFirstDefinition, hmv, truthy]
              | bool b => simp [extract_definition, specFirstDefinition, hmv, truthy]
              | num n => simp [extract_definition, specFirstDefinition, hmv, truthy]
              | str s => simp [extract_definition, specFirstDefinition, hmv, truthy]
              | arr l => simp [extract_definition, specFirstDefinition, hmv, truthy]
          | null => simp [extract_definition, specFirstDefinition, hmv, truthy]
          | bool b =>
            cases b <;> simp [extract_definition, specFirstDefinition, hmv, truthy]
          | num n =>
            by_cases hn : n = 0 <;>
              simp [extract_definition, specFirstDefinition, hmv, truthy, hn]
          | str s =>
            by_cases hs : s = "" <;>
              simp [extract_definition, specFirstDefinition, hmv, truthy, hs]
          | obj kvs =>
            cases kvs <;> simp [extract_definition, specFirstDefinition, hmv, truthy]
      | null => rfl
      | bool b => rfl
      | num n => rfl
      | str s => rfl
      | arr l => rfl
  | null => rfl
  | bool b => rfl
  | num n => rfl
  | str s => rfl
  | obj kvs => rfl

/-- A response whose status is in [400, 600) but is not 404 enters the
handler carrying that status. -/
theorem attemptStep_resp_raise {s : Nat} (b : Json) (h404 : ¬ s = 404)
    (h : 400 ≤ s ∧ s < 600) :
    attemptStep (.resp s b) = .exn (.withResp s) := by
  simp only [attemptStep]
  rw [if_neg h404]
  simp only [raise_for_status]
  rw [if_pos h]

/-- A response outside [400, 600) and other than 404 reaches the extraction
step. -/
theorem attemptStep_resp_ok {s : Nat} (b : Json) (h404 : ¬ s = 404)
    (h : ¬ (400 ≤ s ∧ s < 600)) :
    attemptStep (.resp s b) = .done (extract_definition b) := by
  simp only [attemptStep]
  rw [if_neg h404]
  simp only [raise_for_status]
  rw [if_neg h]

/-- A retryable-by-claim outcome enters the handler with an exception the
break test does not stop. -/
theorem retryableByClaim_step {o : AttemptOutcome} (h : retryableByClaim o) :
    ∃ e, attemptStep o = .exn e ∧ terminalClientError e = false := by
  rcases h with ⟨b, rfl⟩ | ⟨s, b, rfl, h5, h6⟩ | rfl
  · refine ⟨.withResp 429, ?_, ?_⟩
    · exact attemptStep_resp_raise b (by omega) (by omega)
    · simp [terminalClientError]
  · refine ⟨.withResp s, ?_, ?_⟩
    · exact attemptStep_resp_raise b (by omega) (by omega)
    · have hlt : ¬ s < 500 := by omega
      simp only [terminalClientError, decide_eq_false hlt, Bool.and_false,
        Bool.false_and]
  · exact ⟨.noResp, rfl, rfl⟩

/-- An attempt whose `try` block returns ends the loop at once, with a
single transport call, whatever the remaining retry budget. -/
theorem runFrom_done {tr : Nat → AttemptOutcome} {a : Nat} {d : Option Json}
    (h : attemptStep (tr a) = .done d) (r : Nat) :
    runFrom tr a r = ⟨.ok d, [Ev.transportCall]⟩ := by
  cases r <;> simp [runFrom, h]

/-- With no retries left, any exception ends the loop with a single
transport call, wrapping that exception. -/
theorem runFrom_exn_last {tr : Nat → AttemptOutcome} {a : Nat} {e : ReqExn}
    (h : attemptStep (tr a) = .exn e) :
    runFrom tr a 0 = ⟨.error e, [Ev.transportCall]⟩ := by
  simp [runFrom, h]

/-- A terminal (4xx-non-429) client error ends the loop at once, with a
single transport call, whatever the remaining retry budget. -/
theorem runFrom_terminal {tr : Nat → AttemptOutcome} {a : Nat} {e : ReqExn}
    (h : attemptStep (tr a) = .exn e) (ht : terminalClientError e = true)
    (r : Nat) :
    runFrom tr a r = ⟨.error e, [Ev.transportCall]⟩ := by
  cases r <;> simp [runFrom, h, ht]

/-- With retries remaining, a non-terminal exception sleeps `2 ^ a`,
re-acquires the rate limiter and continues at the next attempt. -/
theorem runFrom_retry {tr : Nat → AttemptOutcome} {a : Nat} {e : ReqExn}
    {r : Nat} (h : attemptStep (tr a) = .exn e)
    (ht : terminalClientError e = false) :
    runFrom tr a (r + 1) =
      ⟨(runFrom tr (a + 1) r).result,
        Ev.transportCall :: Ev.sleep (2 ^ a) :: Ev.acquire ::
          (runFrom tr (a + 1) r).trace⟩ := by
  simp [runFrom, h, ht]

/-- When every attempt in the window is a non-terminal exception, the loop
exhausts all retries: the result wraps the final attempt's exception and
exactly `r + 1` transport calls happen. -/
theorem runFrom_all_retry {tr : Nat → AttemptOutcome} :
    ∀ (r a : Nat),
      (∀ i, a ≤ i → i ≤ a + r →
        ∃ e, attemptStep (tr i) = .exn e ∧ terminalClientError e = false) →
      ∃ e, attemptStep (tr (a + r)) = .exn e ∧
        (runFrom tr a r).result = .error e ∧
        (runFrom tr a r).trace.countP isCall = r + 1
  | 0, a, hyp => by
    obtain ⟨e, he, ht⟩ := hyp a le_rfl (by omega)
    refine ⟨e, by simpa using he, ?_, ?_⟩
    · rw [runFrom_exn_last he]
    · rw [runFrom_exn_last he]
      rfl
  | r + 1, a, hyp => by
    obtain ⟨e, he, ht⟩ := hyp a le_rfl (by omega)
    obtain ⟨e', he', hres, hcount⟩ :=
      runFrom_all_retry r (a + 1) (fun i h1 h2 => hyp i (by omega) (by omega))
    refine ⟨e', ?_, ?_, ?_⟩
    · rw [show a + (r + 1) = (a + 1) + r by omega]
      exact he'
    · rw [runFrom_retry he ht]
      exact hres
    · rw [runFrom_retry he ht]
      simp only [List.countP_cons, hcount, isCall]
      rfl

/-- Claim C2: for every word whose lookup encounters `max_retries + 1`
consecutive retryable outcomes (5xx, 429, or transport-level failure),
`get_definition` raises a `DictionaryServiceError` wrapping the last
underlying cause, and the transport is invoked exactly `max_retries + 1`
times (4 total attempts with the default `max_retries = 3`), no more. -/
theorem C2_exhausted_retries_raise (attempts : Nat → AttemptOutcome)
    (maxRetries : Nat) (w : String) (hw : ¬ strip w = "")
    (hr : ∀ i, i ≤ maxRetries → retryableByClaim (attempts i)) :
    ∃ e, attemptStep (attempts maxRetries) = .exn e ∧
      (get_definition attempts maxRetries (some w)).result =
        .error (.dsError e) ∧
      numCalls (get_definition attempts maxRetries (some w)) =
        maxRetries + 1 := by
  obtain ⟨e, he, hres, hcount⟩ := runFrom_all_retry maxRetries 0
    (fun i h1 h2 => retryableByClaim_step (hr i (by omega)))
  refine ⟨e, by simpa using he, ?_, ?_⟩
  · simp only [get_definition, if_neg hw]
    rw [hres]
    rfl
  · simp only [numCalls, get_definition, if_neg hw, List.countP_cons, hcount]
    rfl

theorem C2_witness :
    (get_definition (fun _ => .raised .noResp) 3 (some "test")).result =
        .error (.dsError .noResp) ∧
      numCalls (get_definition (fun _ => .raised .noResp) 3 (some "test")) =
        4 := by
  obtain ⟨e, he, hres, hcount⟩ :=
    C2_exhausted_retries_raise (fun _ => .raised .noResp) 3 "test"
      (by decide) (fun i _ => Or.inr (Or.inr rfl))
  have he' : ReqExn.noResp = e := by injection he
  exact ⟨he' ▸ hres, hcount⟩

/-- Claim C3: for a lookup whose first two attempts end in retryable
failures and whose third attempt succeeds, `get_definition` returns the
third attempt's extracted definition, invokes the transport exactly three
times, and waits between consecutive attempts with exponentially increasing
backoff delays of `2 ^ attempt_index` time units (1 unit after the first
failure, 2 units after the second), calling the rate limiter before every
attempt including retries.  The full event trace is pinned down: acquire,
call, sleep 1, acquire, call, sleep 2, acquire, call. -/
theorem C3_two_failures_then_success (attempts : Nat → AttemptOutcome)
    (maxRetries : Nat) (w : String) (hw : ¬ strip w = "")
    (hmr : 2 ≤ maxRetries)
    (h0 : retryableByClaim (attempts 0)) (h1 : retryableByClaim (attempts 1))
    (st : Nat) (b : Json) (h2 : attempts 2 = .resp st b)
    (h404 : ¬ st = 404) (hok : ¬ (400 ≤ st ∧ st < 600)) :
    (get_definition attempts maxRetries (some w)).result =
        .ok (extract_definition b) ∧
      (get_definition attempts maxRetries (some w)).trace =
        [Ev.acquire, Ev.transportCall, Ev.sleep 1, Ev.acquire,
          Ev.transportCall, Ev.sleep 2, Ev.acquire, Ev.transportCall] := by
  obtain ⟨k, rfl⟩ : ∃ k, maxRetries = k + 2 := ⟨maxRetries - 2, by omega⟩
  obtain ⟨e0, he0, ht0⟩ := retryableByClaim_step h0
  obtain ⟨e1, he1, ht1⟩ := retryableByClaim_step h1
  have hstep2 : attemptStep (attempts 2) = .done (extract_definition b) := by
    rw [h2]
    exact attemptStep_resp_ok b h404 hok
  have hrun2 := runFrom_done hstep2 k
  have hrun1 := runFrom_retry (r := k) he1 ht1
  rw [hrun2] at hrun1
  have hrun0 := runFrom_retry (r := k + 1) he0 ht0
  rw [hrun1] at hrun0
  constructor
  · simp only [get_definition, if_neg hw]
    rw [hrun0]
    rfl
  · simp only [get_definition, if_neg hw]
    rw [hrun0]
    norm_num

theorem C3_witness :
    (get_definition (fun i => if i < 2 then .raised .noResp
        else .resp 200 exampleBody) 3 (some "test")).result =
        .ok (some (Json.str "X")) ∧
      (get_definition (fun i => if i < 2 then .raised .noResp
        else .resp 200 exampleBody) 3 (some "test")).trace =
        [Ev.acquire, Ev.transportCall, Ev.sleep 1, Ev.acquire,
          Ev.transportCall, Ev.sleep 2, Ev.acquire, Ev.transportCall] := by
  obtain ⟨hres, htrace⟩ :=
    C3_two_failures_then_success
      (fun i => if i < 2 then .raised .noResp else .resp 200 exampleBody)
      3 "test" (by decide) (by omega)
      (Or.inr (Or.inr rfl)) (Or.inr (Or.inr rfl))
      200 exampleBody rfl (by omega) (by omega)
  refine ⟨?_, htrace⟩
  rw [hres]
  rfl

/-- Claim C4, counterexample to the claim as stated: status 404 lies in the
4xx range and differs from 429, yet `get_definition` does not raise — it
returns the absent definition after one transport call (line 99-100 of the
source handles 404 before the client-error classification). -/
theorem C4_counterexample :
    (get_definition (fun _ => .resp 404 .null) 3 (some "test")).result =
        .ok none ∧
      isDsError
        (get_definition (fun _ => .resp 404 .null) 3 (some "test")).result =
        false ∧
      numCalls (get_definition (fun _ => .resp 404 .null) 3 (some "test")) =
        1 := by
  refine ⟨?_, ?_, ?_⟩ <;> rfl

/-- Claim C4 as amended: for every lookup whose attempt yields a
client-error status in the 4xx range other than 429 and other than 404,
`get_definition` raises a `DictionaryServiceError` carrying that status
after exactly one transport call, performing no retries. -/
theorem C4_client_error_no_retry (attempts : Nat → AttemptOutcome)
    (maxRetries : Nat) (w : String) (hw : ¬ strip w = "")
    (st : Nat) (b : Json) (h0 : attempts 0 = .resp st b)
    (h400 : 400 ≤ st) (h500 : st < 500) (h429 : st ≠ 429) (h404 : st ≠ 404) :
    (get_definition attempts maxRetries (some w)).result =
        .error (.dsError (.withResp st)) ∧
      (get_definition attempts maxRetries (some w)).trace =
        [Ev.acquire, Ev.transportCall] := by
  have hstep : attemptStep (attempts 0) = .exn (.withResp st) := by
    rw [h0]
    exact attemptStep_resp_raise b h404 ⟨h400, by omega⟩
  have hterm : terminalClientError (.withResp st) = true := by
    simp [terminalClientError, h400, h500, h429]
  have hrun := runFrom_terminal hstep hterm maxRetries
  constructor
  · simp only [get_definition, if_neg hw]
    rw [hrun]
    rfl
  · simp only [get_definition, if_neg hw]
    rw [hrun]

theorem C4_witness :
    (get_definition (fun _ => .resp 400 .null) 3 (some "test")).result =
        .error (.dsError (.withResp 400)) ∧
      (get_definition (fun _ => .resp 400 .null) 3 (some "test")).trace =
        [Ev.acquire, Ev.transportCall] :=
  C4_client_error_no_retry (fun _ => .resp 400 .null) 3 "test" (by decide)
    400 .null rfl (by omega) (by omega) (by omega) (by omega)

/-- Claim C5, counterexample to the claim as stated: with every attempt
yielding a genuine HTTP 400 response, `get_definition` makes exactly one
transport attempt, not four — the `raise_for_status` of the `requests`
library attaches the response to the raised `HTTPError`, so the 4xx-non-429
break on lines 118-124 fires.  (The repository's mock-based test observes 4
attempts only because its hand-built `HTTPError` carries no response.) -/
theorem C5_counterexample :
    numCalls (get_definition (fun _ => .resp 400 .null) 3 (some "word")) =
        1 ∧
      ¬ numCalls (get_definition (fun _ => .resp 400 .null) 3 (some "word")) =
        4 ∧
      isDsError
        (get_definition (fun _ => .resp 400 .null) 3 (some "word")).result =
        true := by
  refine ⟨rfl, ?_, rfl⟩
  intro h
  rw [show numCalls (get_definition (fun _ => .resp 400 .null) 3
    (some "word")) = 1 from rfl] at h
  exact absurd h (by omega)

/-- Claim C5 as amended: when every attempt for a word yields an HTTP 400
response, `get_definition` treats the first such response as terminal,
making exactly one transport attempt in total before failing with a
`DictionaryServiceError` that carries status 400. -/
theorem C5_http400_terminal (attempts : Nat → AttemptOutcome)
    (maxRetries : Nat) (w : String) (hw : ¬ strip w = "")
    (b : Json) (h0 : attempts 0 = .resp 400 b) :
    (get_definition attempts maxRetries (some w)).result =
        .error (.dsError (.withResp 400)) ∧
      numCalls (get_definition attempts maxRetries (some w)) = 1 := by
  have hstep : attemptStep (attempts 0) = .exn (.withResp 400) := by
    rw [h0]
    exact attemptStep_resp_raise b (by omega) (by omega)
  have hterm : terminalClientError (.withResp 400) = true := by decide
  have hrun := runFrom_terminal hstep hterm maxRetries
  constructor
  · simp only [get_definition, if_neg hw]
    rw [hrun]
    rfl
  · simp only [numCalls, get_definition, if_neg hw]
    rw [hrun]
    rfl

theorem C5_witness :
    (get_definition (fun _ => .resp 400 Json.null) 2 (some "abc")).result =
        .error (.dsError (.withResp 400)) ∧
      numCalls (get_definition (fun _ => .resp 400 Json.null) 2
        (some "abc")) = 1 :=
  C5_http400_terminal (fun _ => .resp 400 Json.null) 2 "abc" (by decide)
    Json.null rfl

/-- Claim C6: for every lookup whose first attempt yields a 404 (not-found)
response, `get_definition` returns the absent definition immediately after
exactly one transport call, without retrying and without raising. -/
theorem C6_not_found_returns_none (attempts : Nat → AttemptOutcome)
    (maxRetries : Nat) (w : String) (hw : ¬ strip w = "")
    (b : Json) (h0 : attempts 0 = .resp 404 b) :
    (get_definition attempts maxRetries (some w)).result = .ok none ∧
      (get_definition attempts maxRetries (some w)).trace =
        [Ev.acquire, Ev.transportCall] := by
  have hstep : attemptStep (attempts 0) = .done none := by
    rw [h0]
    simp [attemptStep]
  have hrun := runFrom_done hstep maxRetries
  constructor
  · simp only [get_definition, if_neg hw]
    rw [hrun]
    rfl
  · simp only [get_definition, if_neg hw]
    rw [hrun]

theorem C6_witness :
    (get_definition (fun _ => .resp 404 Json.null) 3 (some "zzz")).result =
        .ok none ∧
      (get_definition (fun _ => .resp 404 Json.null) 3 (some "zzz")).trace =
        [Ev.acquire, Ev.transportCall] :=
  C6_not_found_returns_none (fun _ => .resp 404 Json.null) 3 "zzz"
    (by decide) Json.null rfl

/-- Claim C7: for every successful structured response body, definition
extraction returns the first definition reached via first entry → first
meaning group → first definition object (`_extract_definition` agrees with
the spec's path rule `specFirstDefinition` on every JSON value), and for
any body deviating from this shape — empty list, non-list such as `{}`, a
plain string, empty `meanings` or `definitions` arrays, wrong structural
types — it returns absent.  "Never raises" is witnessed by totality: the
embedding is a total function into `Option Json` because every exception
path of the source is caught and returns `None`. -/
theorem C7_extraction_first_path :
    (∀ data : Json, extract_definition data = specFirstDefinition data) ∧
      extract_definition exampleBody = some (Json.str "X") ∧
      extract_definition (.arr []) = none ∧
      extract_definition (.obj []) = none ∧
      extract_definition (.str "word") = none ∧
      extract_definition (.arr [.obj [("meanings", Json.arr [])]]) = none ∧
      extract_definition (.arr [.obj [("meanings",
        .arr [.obj [("definitions", Json.arr [])]])]]) = none ∧
      extract_definition (.arr [.obj [("meanings",
        .arr [.obj [("definitions", Json.str "definitions")]])]]) = none :=
  ⟨extract_definition_eq_spec, rfl, rfl, rfl, rfl, rfl, rfl, rfl⟩

/-- Claim C8: for every input word that is `None`, empty, or whitespace
only, `get_definition` fails immediately with a `ValueError`: the event
trace is empty, so no transport call happens and the rate limiter is never
invoked — `wait_if_needed` being the only mutator of
`self.request_times`, the rate limiter's timestamp state is unchanged. -/
theorem C8_invalid_input_fails_fast (attempts : Nat → AttemptOutcome)
    (maxRetries : Nat) (word : Option String)
    (h : word = none ∨ ∃ s, word = some s ∧ strip s = "") :
    isValueErr (get_definition attempts maxRetries word).result = true ∧
      (get_definition attempts maxRetries word).trace = [] ∧
      numCalls (get_definition attempts maxRetries word) = 0 ∧
      numAcquires (get_definition attempts maxRetries word) = 0 := by
  rcases h with rfl | ⟨s, rfl, hs⟩
  · exact ⟨rfl, rfl, rfl, rfl⟩
  · have hgd : get_definition attempts maxRetries (some s) =
        ⟨.error (.valueError "Word cannot be empty"), []⟩ := by
      simp only [get_definition, if_pos hs]
    rw [hgd]
    exact ⟨rfl, rfl, rfl, rfl⟩

theorem C8_witness :
    isValueErr (get_definition (fun _ => .resp 200 exampleBody) 3
        (some "   ")).result = true ∧
      (get_definition (fun _ => .resp 200 exampleBody) 3
        (some "   ")).trace = [] ∧
      numCalls (get_definition (fun _ => .resp 200 exampleBody) 3
        (some "   ")) = 0 ∧
      numAcquires (get_definition (fun _ => .resp 200 exampleBody) 3
        (some "   ")) = 0 :=
  C8_invalid_input_fails_fast (fun _ => .resp 200 exampleBody) 3
    (some "   ") (Or.inr ⟨"   ", rfl, by decide⟩)

/-- Claim C9: for every list of words whose individual lookups raise no
`ValueError` (the case a `ValueError` does occur is claim C10's),
`get_definitions` processes the words in input order and returns one
result slot per input word: the word's own definition when its lookup
succeeds, and the absent definition when its lookup raises
`DictionaryServiceError` — one word's failure never disturbs the others'
slots. -/
theorem C9_batch_order_and_partial_failure
    (tr : Option String → Nat → AttemptOutcome) (maxRetries : Nat)
    (words : List (Option String))
    (h : ∀ w ∈ words,
      isValueErr (get_definition (tr w) maxRetries w).result = false) :
    get_definitions tr maxRetries words =
      .ok (words.map (slotOf tr maxRetries)) := by
  induction words with
  | nil => rfl
  | cons w rest ih =>
    have hw := h w (by simp)
    have ih' := ih (fun u hu => h u (by simp [hu]))
    cases hres : (get_definition (tr w) maxRetries w).result with
    | ok d => simp [get_definitions, hres, ih', slotOf, List.map_cons]
    | error e =>
      cases e with
      | valueError m =>
        rw [hres] at hw
        simp [isValueErr] at hw
      | dsError e2 => simp [get_definitions, hres, ih', slotOf, List.map_cons]

theorem C9_witness :
    get_definitions batchTr 0 [some "a", some "bad", some "c"] =
      .ok [some (Json.str "X"), none, some (Json.str "X")] := by
  have h := C9_batch_order_and_partial_failure batchTr 0
    [some "a", some "bad", some "c"]
    (by
      intro w hw
      simp only [List.mem_cons, List.not_mem_nil, or_false] at hw
      rcases hw with rfl | rfl | rfl <;> rfl)
  rw [h]
  rfl

/-- Claim C10: for every list of words containing an element that is
`None`, empty, or whitespace-only, `get_definitions` does not convert that
element's failure into an absent slot: only `DictionaryServiceError` is
caught per word, so the `ValueError` propagates out of `get_definitions`,
aborting the batch — no result list is produced, and the outcomes of the
words after (and before) the invalid element are discarded. -/
theorem C10_invalid_word_aborts_batch
    (tr : Option String → Nat → AttemptOutcome) (maxRetries : Nat)
    (pre : List (Option String)) (w : Option String)
    (post : List (Option String))
    (hpre : ∀ u ∈ pre,
      isValueErr (get_definition (tr u) maxRetries u).result = false)
    (hw : w = none ∨ ∃ s, w = some s ∧ strip s = "") :
    ∃ m, get_definitions tr maxRetries (pre ++ w :: post) =
      .error (.valueError m) := by
  induction pre with
  | nil =>
    rcases hw with rfl | ⟨s, rfl, hs⟩
    · exact ⟨"Word cannot be None", by simp [get_definitions, get_definition]⟩
    · exact ⟨"Word cannot be empty",
        by simp [get_definitions, get_definition, hs]⟩
  | cons u pre' ih =>
    have hu := hpre u (by simp)
    obtain ⟨m, hm⟩ := ih (fun v hv => hpre v (by simp [hv]))
    cases hres : (get_definition (tr u) maxRetries u).result with
    | ok d => exact ⟨m, by simp [get_definitions, hres, hm]⟩
    | error e =>
      cases e with
      | valueError m2 =>
        rw [hres] at hu
        simp [isValueErr] at hu
      | dsError e2 => exact ⟨m, by simp [get_definitions, hres, hm]⟩

theorem C10_witness :
    batchIsValueErr
      (get_definitions batchTr 0 ([some "a"] ++ none :: [some "c"])) =
      true := by
  obtain ⟨m, hm⟩ := C10_invalid_word_aborts_batch batchTr 0 [some "a"] none
    [some "c"]
    (by
      intro u hu
      simp only [List.mem_singleton] at hu
      subst hu
      rfl)
    (Or.inl rfl)
  rw [hm]
  rfl

/-- The pruning loop removes exactly a prefix, every element of which was
at least 1 second old at pruning time. -/
theorem prune_split (t1 : ℚ) (ts : List ℚ) :
    ∃ pre, ts = pre ++ prune t1 ts ∧ ∀ t ∈ pre, 1 ≤ t1 - t := by
  induction ts with
  | nil => exact ⟨[], rfl, by simp⟩
  | cons t rest ih =>
    by_cases h : 1 ≤ t1 - t
    · obtain ⟨pre, heq, hpr⟩ := ih
      refine ⟨t :: pre, ?_, ?_⟩
      · rw [show prune t1 (t :: rest) = prune t1 rest from by
          simp [prune, h]]
        exact congrArg (t :: ·) heq
      · intro u hu
        rcases List.mem_cons.1 hu with rfl | hu
        · exact h
        · exact hpr u hu
    · exact ⟨[], by simp [prune, h], by simp⟩

/-- On a sorted deque, every retained entry is inside the trailing window
of the pruning time. -/
theorem prune_mem_win (t1 : ℚ) {ts : List ℚ} (hs : ts.Sorted (· ≤ ·)) :
    ∀ t ∈ prune t1 ts, t1 - t < 1 := by
  induction ts with
  | nil => simp [prune]
  | cons t rest ih =>
    rw [List.sorted_cons] at hs
    by_cases h : 1 ≤ t1 - t
    · rw [show prune t1 (t :: rest) = prune t1 rest from by simp [prune, h]]
      exact ih hs.2
    · rw [show prune t1 (t :: rest) = t :: rest from by simp [prune, h]]
      intro u hu
      rcases List.mem_cons.1 hu with rfl | hu
      · linarith
      · have := hs.1 u hu
        linarith

theorem sleepLB_nonneg (maxReq : ℕ) (deq : List ℚ) (t1 : ℚ) :
    0 ≤ sleepLB maxReq deq t1 := by
  simp only [sleepLB]
  split
  · split
    · exact le_rfl
    · exact le_max_left 0 _
  · exact le_rfl

/-- One `wait_if_needed` call preserves the rate-limiter invariant. -/
theorem RLInv_step {maxReq : ℕ} {s : RLState} (inv : RLInv maxReq s)
    (t1 t2 : ℚ) (h1 : s.now ≤ t1)
    (hok : maxReq ≠ 0 ∨ prune t1 s.deque ≠ [])
    (h2 : t1 + sleepLB maxReq s.deque t1 ≤ t2) :
    RLInv maxReq ⟨s.hist ++ [t2], prune t1 s.deque ++ [t2], t2⟩ := by
  obtain ⟨⟨d, hsplit, hdold⟩, hsorted, hlenow, hwin⟩ := inv
  obtain ⟨pre, hpre, hpreold⟩ := prune_split t1 s.deque
  have hsub : List.Sublist (prune t1 s.deque) s.deque := by
    nth_rewrite 2 [hpre]
    exact List.sublist_append_right pre _
  have hpsorted : (prune t1 s.deque).Sorted (· ≤ ·) := hsorted.sublist hsub
  have hpwin : ∀ t ∈ prune t1 s.deque, t1 - t < 1 := prune_mem_win t1 hsorted
  have hplen : (prune t1 s.deque).length ≤ maxReq := by
    have e1 : (prune t1 s.deque).countP (inWin t1) =
        (prune t1 s.deque).length :=
      List.countP_eq_length.2 fun a ha => by
        simpa [inWin] using hpwin a ha
    have e2 : (prune t1 s.deque).countP (inWin t1) ≤
        s.deque.countP (inWin t1) := hsub.countP_le _
    have e3 : s.deque.countP (inWin t1) ≤ s.deque.countP (inWin s.now) :=
      List.countP_mono_left fun a ha hpa => by
        simp only [inWin, decide_eq_true_eq] at hpa ⊢
        linarith
    omega
  have ht12 : t1 ≤ t2 := by
    have := sleepLB_nonneg maxReq s.deque t1
    linarith
  have hnow2 : s.now ≤ t2 := le_trans h1 ht12
  have hmemnow : ∀ t ∈ prune t1 s.deque, t ≤ s.now :=
    fun t ht => hlenow t (hsub.subset ht)
  refine ⟨⟨d ++ pre, ?_, ?_⟩, ?_, ?_, ?_⟩
  · show s.hist ++ [t2] = (d ++ pre) ++ (prune t1 s.deque ++ [t2])
    rw [hsplit]
    conv_lhs => rw [hpre]
    simp [List.append_assoc]
  · intro t ht
    rcases List.mem_append.1 ht with ht | ht
    · have := hdold t ht
      linarith
    · have := hpreold t ht
      linarith
  · show (prune t1 s.deque ++ [t2]).Sorted (· ≤ ·)
    refine List.pairwise_append.2 ⟨hpsorted, List.sorted_singleton t2, ?_⟩
    intro a ha b hb
    rcases List.mem_singleton.1 hb with rfl
    have := hmemnow a ha
    linarith
  · intro t ht
    rcases List.mem_append.1 ht with ht | ht
    · have := hmemnow t ht
      show t ≤ t2
      linarith
    · rcases List.mem_singleton.1 ht with rfl
      exact le_rfl
  · show (prune t1 s.deque ++ [t2]).countP (inWin t2) ≤ maxReq
    rw [List.countP_append]
    have hone : ([t2] : List ℚ).countP (inWin t2) = 1 := by
      simp [inWin]
    by_cases hcase : maxReq ≤ (prune t1 s.deque).length
    · -- the ceiling was reached: the code slept past the oldest entry
      have hne : prune t1 s.deque ≠ [] := by
        rcases hok with hok | hok
        · intro hnil
          rw [hnil] at hcase
          simp at hcase
          omega
        · exact hok
      obtain ⟨t0, p'', hpeq⟩ : ∃ t0 p'', prune t1 s.deque = t0 :: p'' := by
        cases hp : prune t1 s.deque with
        | nil => exact absurd hp hne
        | cons t0 p'' => exact ⟨t0, p'', rfl⟩
      have hslb : sleepLB maxReq s.deque t1 = max 0 (1 - (t1 - t0)) := by
        rw [sleepLB, if_pos hcase, hpeq]
      have ht0out : ¬ (inWin t2 t0 = true) := by
        simp only [inWin, decide_eq_true_eq, not_lt]
        have : 1 - (t1 - t0) ≤ sleepLB maxReq s.deque t1 := by
          rw [hslb]
          exact le_max_right 0 _
        linarith
      have hcnt : (prune t1 s.deque).countP (inWin t2) ≤ p''.length := by
        rw [hpeq, List.countP_cons_of_neg _ _ ht0out]
        exact List.countP_le_length _
      have hlen : (prune t1 s.deque).length = p''.length + 1 := by
        rw [hpeq]
        rfl
      omega
    · have : (prune t1 s.deque).countP (inWin t2) ≤
          (prune t1 s.deque).length := List.countP_le_length _
      omega

/-- Every reachable rate-limiter state satisfies the invariant. -/
theorem RLReach_inv {maxReq : ℕ} {s : RLState} (h : RLReach maxReq s) :
    RLInv maxReq s := by
  induction h with
  | init t => exact ⟨⟨[], by simp, by simp⟩, List.sorted_nil, by simp, by simp⟩
  | step t1 t2 hs h1 hok h2 ih => exact RLInv_step ih t1 t2 h1 hok h2

/-- Claim C1: for every sequence of sequential `acquire()`
(`wait_if_needed`) calls on a `RateLimiter` configured with ceiling
`max_requests_per_second`, at the moment each call returns, the number of
admitted request timestamps (the full history, pruned ones included) lying
within the trailing 1-second window ending at that moment is at most the
configured ceiling. -/
theorem C1_window_never_exceeds_ceiling (maxReq : ℕ) (s : RLState)
    (h : RLReach maxReq s) :
    s.hist.countP (inWin s.now) ≤ maxReq := by
  obtain ⟨⟨d, hsplit, hdold⟩, _, _, hwin⟩ := RLReach_inv h
  rw [hsplit, List.countP_append]
  have hd : d.countP (inWin s.now) = 0 :=
    List.countP_eq_zero.2 fun t ht => by
      have := hdold t ht
      simp only [inWin, decide_eq_true_eq, not_lt]
      linarith
  omega

theorem C1_witness :
    ([(0 : ℚ)].countP (inWin (0 : ℚ))) ≤ 1 := by
  have h0 : RLReach 1 (⟨[], [], 0⟩ : RLState) := RLReach.init 0
  have hstep := RLReach.step (s := (⟨[], [], 0⟩ : RLState)) 0 0 h0 le_rfl
    (Or.inl one_ne_zero) (by norm_num [sleepLB, prune])
  have hreach : RLReach 1 (⟨[(0 : ℚ)], [(0 : ℚ)], 0⟩ : RLState) := by
    simpa [prune] using hstep
  simpa using C1_window_never_exceeds_ceiling 1 ⟨[(0 : ℚ)], [(0 : ℚ)], 0⟩
    hreach
